import Mathlib

set_option maxHeartbeats 1000000

/-!
Verification development for the UART-servo backlash log-analysis core
(`software/logs_analysis/config_utils.py` and `software/logs_analysis/log_calc.py`).

The dataset is modelled as a table of rational-valued columns addressed by
name, plus an explicit model of the `timestamp` column's parsing state.
Printed report lines are modelled as structured values carrying exactly the
data the source prints; error raising (`KeyError`, `ValueError`) is modelled
with `Except`.
-/

/-! ## Interval extraction (`config_utils.find_segments`, lines 158-178) -/

/-- State-passing scan of `find_segments`: `i` is the current absolute index,
`os` is `some s` when the scan is inside an interval opened at `s`, and `acc`
is the list of already closed intervals (Python's `segments.append`). -/
def findSegmentsAux : List Bool → Nat → Option Nat → List (Nat × Nat) → List (Nat × Nat)
  | [], i, some s, acc => acc ++ [(s, i - 1)]
  | [], _, none, acc => acc
  | a :: rest, i, none, acc =>
      if a then findSegmentsAux rest (i + 1) (some i) acc
      else findSegmentsAux rest (i + 1) none acc
  | a :: rest, i, some s, acc =>
      if a then findSegmentsAux rest (i + 1) (some s) acc
      else findSegmentsAux rest (i + 1) none (acc ++ [(s, i - 1)])

/-- Contiguous `[start_idx, end_idx]` index ranges where the mask is true. -/
def find_segments (mask : List Bool) : List (Nat × Nat) :=
  findSegmentsAux mask 0 none []

/-- Proposition that some interval of `l` contains the index `j`. -/
def coversIdx (l : List (Nat × Nat)) (j : Nat) : Prop :=
  ∃ p ∈ l, p.1 ≤ j ∧ j ≤ p.2

/-! ## Segment length filter (`log_calc.analyze_log`, lines 75-79) -/

/-- Filtering of raw segments by `(end_idx - start_idx + 1) >= min_segment_samples`;
the arithmetic is over `Int` exactly as over Python integers. -/
def filter_segments (raw : List (Nat × Nat)) (minSamples : Int) : List (Nat × Nat) :=
  raw.filter fun p => decide (minSamples ≤ (p.2 : Int) - (p.1 : Int) + 1)

/-! ## Configuration entities (`config_utils.MotorConfig` / `AnalysisConfig`) -/

structure MotorConfig where
  motor_id : Int
  label : String
  relaxed_target : ℚ
  relaxed_tolerance : ℚ
  stretched_target : ℚ
  stretched_tolerance : ℚ
deriving DecidableEq

structure AnalysisConfig where
  home_position : ℚ
  home_tolerance : ℚ
  home_motor_ids : List Int
  require_home_position_match : Bool
  report_motor_ids : List Int
  min_segment_samples : Int
  actuated_motors : List MotorConfig
deriving DecidableEq

/-! ## Dataset model -/

/-- State of the `timestamp` column: either raw (string-like) values that
`pd.to_datetime` can (`canParse = true`) or cannot parse, or an
already-parsed datetime column whose entries are modelled as seconds. -/
inductive TsCol
  | raw (canParse : Bool) (parsed : List ℚ)
  | datetime (vals : List ℚ)
deriving DecidableEq

/-- Tabular dataset: row count, names of the columns present, numeric values
of each column, and the state of the `timestamp` column (meaningful only when
the name `timestamp` is among `cols`). -/
structure Dataset where
  n : Nat
  cols : List String
  val : String → List ℚ
  timestamp : TsCol

def target_col (motor_id : Int) : String := "target pos (" ++ toString motor_id ++ ")"

def pos_col (motor_id : Int) : String := "pos (" ++ toString motor_id ++ ")"

/-- Value of column `c` at row `i`. -/
def colAt (df : Dataset) (c : String) (i : Nat) : ℚ := (df.val c).getD i 0

/-! ## Mask builders (`config_utils`, lines 135-155) -/

/-- Boolean series `df[c] == x`. -/
def seriesEqMask (df : Dataset) (c : String) (x : ℚ) : List Bool :=
  (List.range df.n).map fun i => decide (colAt df c i = x)

/-- Boolean series `(df[c] - x).abs() <= tol`. -/
def seriesTolMask (df : Dataset) (c : String) (x tol : ℚ) : List Bool :=
  (List.range df.n).map fun i => decide (|colAt df c i - x| ≤ tol)

/-- Elementwise `&` of two boolean series. -/
def maskAnd (a b : List Bool) : List Bool := List.zipWith and a b

/-- Loop body of `build_phase_mask`: one home motor's contribution. -/
def phaseStep (df : Dataset) (config : AnalysisConfig) (mask : List Bool) (motor_id : Int) :
    List Bool :=
  let mask := maskAnd mask (seriesEqMask df (target_col motor_id) config.home_position)
  if config.require_home_position_match then
    maskAnd mask (seriesTolMask df (pos_col motor_id) config.home_position config.home_tolerance)
  else mask

def build_phase_mask (df : Dataset) (config : AnalysisConfig) : List Bool :=
  config.home_motor_ids.foldl (phaseStep df config) (List.replicate df.n true)

/-- Loop body of `build_relaxed_mask`: one actuated motor's contribution. -/
def relaxedStep (df : Dataset) (mask : List Bool) (motor : MotorConfig) : List Bool :=
  maskAnd (maskAnd mask (seriesEqMask df (target_col motor.motor_id) motor.relaxed_target))
    (seriesTolMask df (pos_col motor.motor_id) motor.relaxed_target motor.relaxed_tolerance)

def build_relaxed_mask (df : Dataset) (motors : List MotorConfig) : List Bool :=
  motors.foldl (relaxedStep df) (List.replicate df.n true)

def build_stretch_mask (df : Dataset) (motor : MotorConfig) : List Bool :=
  maskAnd (seriesEqMask df (target_col motor.motor_id) motor.stretched_target)
    (seriesTolMask df (pos_col motor.motor_id) motor.stretched_target motor.stretched_tolerance)

/-! ## Column checking (`config_utils.ensure_columns` and
`analyze_log` lines 51-60) -/

/-- Lexicographic code-point comparison of character lists, the order
Python's `sorted` uses on strings. -/
def charListLe : List Char → List Char → Bool
  | [], _ => true
  | _ :: _, [] => false
  | c1 :: r1, c2 :: r2 =>
      if c1 = c2 then charListLe r1 r2 else decide (c1.toNat < c2.toNat)

def strLe (a b : String) : Bool := charListLe a.data b.data

def insertStr (s : String) : List String → List String
  | [] => [s]
  | t :: rest => if strLe s t then s :: t :: rest else t :: insertStr s rest

/-- Lexicographic sort of a list of strings (Python's `sorted`). -/
def sortStrings : List String → List String
  | [] => []
  | s :: rest => insertStr s (sortStrings rest)

/-- Sorted list of the distinct column names required by a configuration
(`sorted(required_columns)` after the three set-insertion loops). -/
def requiredColumns (config : AnalysisConfig) : List String :=
  sortStrings
    (((config.home_motor_ids.flatMap fun mid => [target_col mid, pos_col mid]) ++
      config.report_motor_ids.map pos_col ++
      (config.actuated_motors.flatMap fun m => [target_col m.motor_id, pos_col m.motor_id])).dedup)

/-- Columns reported by `ensure_columns`' `KeyError`: the required columns
absent from the dataset, all of them in one list. -/
def missingColumns (df : Dataset) (config : AnalysisConfig) : List String :=
  (requiredColumns config).filter fun c => decide (c ∉ df.cols)

/-! ## Timestamp parsing and `t_sec` (`analyze_log` lines 62-71) -/

/-- Effect of `pd.to_datetime` inside `try/except`: a parsable raw column
becomes datetime, anything else is left unchanged. -/
def parseTimestampCol : TsCol → TsCol
  | .raw true p => .datetime p
  | t => t

def tsIsDatetime : TsCol → Bool
  | .datetime _ => true
  | _ => false

/-- Elapsed seconds from the first entry of a datetime column. -/
def elapsedVals : TsCol → List ℚ
  | .datetime vals => vals.map fun t => t - vals.getD 0 0
  | _ => []

/-- Pointwise update of one column of the column map. -/
def colUpdate (val : String → List ℚ) (c : String) (v : List ℚ) : String → List ℚ :=
  fun c2 => if c2 = c then v else val c2

/-- In-place dataframe mutation performed by `analyze_log` before analysis:
parse the `timestamp` column if present, then set `t_sec` to elapsed seconds
when a datetime timestamp is available and to the row index otherwise. -/
def applyTimestamp (df : Dataset) : Dataset :=
  let ts1 := if "timestamp" ∈ df.cols then parseTimestampCol df.timestamp else df.timestamp
  let tsec :=
    if "timestamp" ∈ df.cols ∧ tsIsDatetime ts1 = true then elapsedVals ts1
    else (List.range df.n).map fun i => (i : ℚ)
  { n := df.n
    cols := if "t_sec" ∈ df.cols then df.cols else df.cols ++ ["t_sec"]
    val := colUpdate df.val "t_sec" tsec
    timestamp := ts1 }

/-! ## Sub-segment matching (`analyze_log` lines 99-126) -/

inductive SubState
  | stretched
  | relaxed
deriving DecidableEq

def stateName : SubState → String
  | .stretched => "stretched"
  | .relaxed => "relaxed"

/-- One emitted sub-segment: motor label, state, and the interval in absolute
row indices. -/
structure Emit where
  motorLabel : String
  state : SubState
  interval : Nat × Nat
deriving DecidableEq

/-- Restriction of a mask to rows `s..e` (`mask.iloc[start:end+1]`). -/
def sliceMask (mask : List Bool) (s e : Nat) : List Bool :=
  (mask.drop s).take (e + 1 - s)

/-- Inner scan over the relaxed intervals: return the first one whose start
index is strictly greater than `le` (`if rs > le: ...; break`). -/
def matchRelaxed : List (Nat × Nat) → Nat → Option (Nat × Nat)
  | [], _ => none
  | p :: rest, le => if le < p.1 then some p else matchRelaxed rest le

/-- Emissions for one stretched interval `p` (segment-local indices): the
stretched sub-segment itself, then the matched relaxed sub-segment if the
scan found one. `start_idx` translates back to absolute indices. -/
def emitForStretch (motorLabel : String) (start_idx : Nat)
    (relaxed_segments : List (Nat × Nat)) (p : Nat × Nat) : List Emit :=
  ⟨motorLabel, .stretched, (start_idx + p.1, start_idx + p.2)⟩ ::
    (match matchRelaxed relaxed_segments p.2 with
     | some q => [⟨motorLabel, .relaxed, (start_idx + q.1, start_idx + q.2)⟩]
     | none => [])

/-- The `stretch_masks` dict keyed by `motor.motor_id` (a later motor with
the same id overwrites an earlier one). -/
def stretchMaskDict (df : Dataset) (motors : List MotorConfig) (mid : Int) : List Bool :=
  (motors.foldl (fun acc m => if m.motor_id = mid then some (build_stretch_mask df m) else acc)
    none).getD []

/-- All sub-segments emitted for one phase segment, in emission order:
for each actuated motor in order, for each of its stretched intervals in
order, the stretched emission followed by the matched relaxed emission. -/
def processSegment (df : Dataset) (config : AnalysisConfig) (relaxed_mask : List Bool)
    (stretch_masks : Int → List Bool) (seg : Nat × Nat) : List Emit :=
  let relaxed_segments := find_segments (sliceMask relaxed_mask seg.1 seg.2)
  config.actuated_motors.flatMap fun motor =>
    let stretch_segments := find_segments (sliceMask (stretch_masks motor.motor_id) seg.1 seg.2)
    stretch_segments.flatMap (emitForStretch motor.label seg.1 relaxed_segments)

/-! ## Aggregation (`analyze_log` lines 24-47 and 128-159) -/

/-- Row indices of the slice `df.iloc[p.1 : p.2 + 1]` (clipped at `df.n`). -/
def sliceRows (df : Dataset) (p : Nat × Nat) : List Nat :=
  List.range' p.1 (min (p.2 + 1) df.n - p.1)

def meanQ (xs : List ℚ) : ℚ := xs.sum / (xs.length : ℚ)

/-- Per-report-motor mean positions over a list of row indices
(`summarize_measurements`). -/
def summarize_measurements (df : Dataset) (rows : List Nat) (report_motor_ids : List Int) :
    List (Int × ℚ) :=
  report_motor_ids.map fun mid => (mid, meanQ (rows.map fun i => colAt df (pos_col mid) i))

/-- Mean positions over the concatenation of a group's slices, or `none` for
an empty group (`average_positions`, lines 43-47). -/
def average_positions (df : Dataset) (slices : List (Nat × Nat)) (report_motor_ids : List Int) :
    Option (List (Int × ℚ)) :=
  if slices.isEmpty then none
  else some (summarize_measurements df (slices.flatMap (sliceRows df)) report_motor_ids)

/-- Slices collected in `global_groups[label][state]`, in append order: the
filter of the global emission stream by motor label and state. -/
def groupSlices (emits : List Emit) (lbl : String) (st : SubState) : List (Nat × Nat) :=
  (emits.filter fun e => decide (e.motorLabel = lbl) && decide (e.state = st)).map (·.interval)

/-- Python truthiness of an `Optional[Dict]`: falsy when `None` or empty. -/
def falsyAvg : Option (List (Int × ℚ)) → Bool
  | none => true
  | some [] => true
  | some (_ :: _) => false

def lookupId (l : List (Int × ℚ)) (mid : Int) : ℚ :=
  ((l.find? fun p => decide (p.1 = mid)).map (·.2)).getD 0

/-- One deviation report entry: `insufficient data` (`none`) when either
side is falsy, otherwise the per-report-motor absolute differences. -/
def deviation_entry (report_motor_ids : List Int) (avg1 avg2 : Option (List (Int × ℚ))) :
    Option (List (Int × ℚ)) :=
  if falsyAvg avg1 || falsyAvg avg2 then none
  else
    some (report_motor_ids.map fun mid =>
      (mid, |lookupId (avg1.getD []) mid - lookupId (avg2.getD []) mid|))

/-- `itertools.combinations(motors, 2)` in the same order. -/
def motorPairs : List MotorConfig → List (MotorConfig × MotorConfig)
  | [] => []
  | m :: rest => rest.map (fun m2 => (m, m2)) ++ motorPairs rest

/-! ## Report structure of `analyze_log` -/

/-- One printed line, carrying exactly the data interpolated by the source's
`print` calls. -/
inductive ReportLine
  | noSegments
  | segmentsHeader
  | segmentLine (segId : Nat) (nSamples : Nat) (tStart tEnd : ℚ)
  | subsegmentLine (label : String) (nSamples : Nat) (tStart tEnd : ℚ)
      (measurements : List (Int × ℚ))
  | totalsHeader
  | groupLine (motorLabel : String) (state : SubState) (avgs : Option (List (Int × ℚ)))
  | deviationHeader
  | needTwoMotors
  | deviationLine (state : SubState) (label1 label2 : String) (devs : Option (List (Int × ℚ)))
  | done
deriving DecidableEq

def emitLabel (e : Emit) : String := e.motorLabel ++ " " ++ stateName e.state

/-- Stable sort of the emitted sub-segments by the `t_sec` of their first
sample (`subsegments.sort(key=...)`). -/
def sortEmits (df : Dataset) (l : List Emit) : List Emit :=
  l.mergeSort fun a b => decide (colAt df "t_sec" a.interval.1 ≤ colAt df "t_sec" b.interval.1)

/-- Index of the last row of the slice `df.iloc[p.1 : p.2+1]` (`.iloc[-1]`). -/
def sliceLastRow (df : Dataset) (p : Nat × Nat) : Nat := min (p.2 + 1) df.n - 1

/-- Printed line for one sub-segment (`print_subsegment`). -/
def subsegmentLineOf (df : Dataset) (config : AnalysisConfig) (e : Emit) : ReportLine :=
  .subsegmentLine (emitLabel e) (sliceRows df e.interval).length
    (colAt df "t_sec" e.interval.1) (colAt df "t_sec" (sliceLastRow df e.interval))
    (summarize_measurements df (sliceRows df e.interval) config.report_motor_ids)

/-- Report lines printed by `analyze_log` after the dataframe mutation,
from phase-mask construction to `Done.`. -/
def analysisOutput (df : Dataset) (config : AnalysisConfig) : List ReportLine :=
  let phase_mask := build_phase_mask df config
  let raw_segments := find_segments phase_mask
  let segments := filter_segments raw_segments config.min_segment_samples
  if segments.isEmpty then [ReportLine.noSegments]
  else
    let relaxed_mask := build_relaxed_mask df config.actuated_motors
    let stretch_masks := stretchMaskDict df config.actuated_motors
    let perSeg := segments.map fun seg =>
      (seg, processSegment df config relaxed_mask stretch_masks seg)
    let allEmits := perSeg.flatMap (·.2)
    (ReportLine.segmentsHeader ::
      perSeg.enum.flatMap fun ke =>
        ReportLine.segmentLine (ke.1 + 1) (sliceRows df ke.2.1).length
            (colAt df "t_sec" ke.2.1.1) (colAt df "t_sec" (sliceLastRow df ke.2.1)) ::
          (sortEmits df ke.2.2).map (subsegmentLineOf df config)) ++
    (ReportLine.totalsHeader ::
      config.actuated_motors.flatMap fun motor =>
        [SubState.stretched, SubState.relaxed].map fun st =>
          ReportLine.groupLine motor.label st
            (average_positions df (groupSlices allEmits motor.label st)
              config.report_motor_ids)) ++
    (ReportLine.deviationHeader ::
      (let pairs := motorPairs config.actuated_motors
       if pairs.isEmpty then [ReportLine.needTwoMotors]
       else
         [SubState.stretched, SubState.relaxed].flatMap fun st =>
           pairs.map fun pr =>
             ReportLine.deviationLine st pr.1.label pr.2.label
               (deviation_entry config.report_motor_ids
                 (average_positions df (groupSlices allEmits pr.1.label st)
                   config.report_motor_ids)
                 (average_positions df (groupSlices allEmits pr.2.label st)
                   config.report_motor_ids)))) ++
    [ReportLine.done]

/-- Whole run of `analyze_log` on a dataframe: the column check first (its
`KeyError` carries every missing column), then the in-place mutation, then
the analysis; the mutated dataframe is returned explicitly. -/
def analyze_log (df : Dataset) (config : AnalysisConfig) :
    Dataset × Except (List String) (List ReportLine) :=
  let missing := missingColumns df config
  if missing.isEmpty then
    let df2 := applyTimestamp df
    (df2, Except.ok (analysisOutput df2 config))
  else (df, Except.error missing)

/-! ## Configuration loading (`config_utils.load_config`, lines 61-132);
file existence and JSON decoding are out of scope, so the loader consumes an
already-decoded raw mapping. Error messages are collapsed to short opaque
strings, no claim depends on their text. -/

/-- One element of a raw motor-id list: an `int()`-convertible value or not. -/
inductive RawItem
  | intVal (i : Int)
  | badVal
deriving DecidableEq

/-- Raw value of a field expected to be a list: absent (`raw.get` returned
`None`), present but not a list (with its Python truthiness), or a list. -/
inductive RawField (α : Type)
  | absent
  | nonList (truthy : Bool)
  | listVal (xs : List α)
deriving DecidableEq

/-- Python truthiness of the raw field value. -/
def fieldTruthy {α : Type} : RawField α → Bool
  | .absent => false
  | .nonList t => t
  | .listVal xs => !xs.isEmpty

/-- Dedup loop of `_extract_motor_ids`: keep the first occurrence of each id,
fail on a non-convertible entry. -/
def collectIds : List RawItem → List Int → Except String (List Int)
  | [], _ => .ok []
  | .badVal :: _, _ => .error "invalid motor id"
  | .intVal i :: rest, seen =>
      if i ∈ seen then collectIds rest seen
      else (collectIds rest (i :: seen)).map fun l => i :: l

/-- `_extract_motor_ids` (lines 44-58): the value must be a non-empty list. -/
def extract_motor_ids (value : RawField RawItem) : Except String (List Int) :=
  match value with
  | .listVal xs => if xs.isEmpty then .error "must be a non-empty list" else collectIds xs []
  | _ => .error "must be a non-empty list"

/-- One raw `actuated_motors` entry: either all five numeric fields present
and convertible (with the optional raw label), or anything that makes the
conversion block raise. -/
inductive RawMotorEntry
  | valid (motor_id : Int) (label : Option String)
      (relaxed_target relaxed_tolerance stretched_target stretched_tolerance : ℚ)
  | invalid
deriving DecidableEq

/-- Decoded raw configuration mapping, one field per key `load_config`
reads; `Option` marks keys `raw.get` may not find. -/
structure RawConfig where
  home_position : Option ℚ
  home_tolerance : Option ℚ
  require_home_position_match : Option Bool
  home_motor_ids : RawField RawItem
  report_motor_ids : RawField RawItem
  min_segment_samples : Option Int
  actuated_motors : RawField RawMotorEntry

/-- Conversion of one actuated motor entry; `entry.get("label") or f"M{...}"`
falls back on an absent or empty label. -/
def processMotorEntry (e : RawMotorEntry) : Except String MotorConfig :=
  match e with
  | .invalid => .error "invalid actuated motor entry"
  | .valid mid lbl rt rtol st stol =>
      let label := match lbl with
        | some s => if s.isEmpty then "M" ++ toString mid else s
        | none => "M" ++ toString mid
      .ok ⟨mid, label, rt, rtol, st, stol⟩

def processMotorEntries : List RawMotorEntry → Except String (List MotorConfig)
  | [] => .ok []
  | e :: rest => do
      let m ← processMotorEntry e
      let ms ← processMotorEntries rest
      return m :: ms

/-- `load_config` after JSON decoding (lines 73-132), written as the same
sequence of early-exit checks as the source. -/
def load_config (raw : RawConfig) : Except String AnalysisConfig :=
  match raw.home_position with
  | none => .error "Config is missing home_position."
  | some home_position =>
    match extract_motor_ids raw.home_motor_ids with
    | .error e => .error e
    | .ok home_motor_ids =>
      let home_tolerance := raw.home_tolerance.getD 0
      let require_home_position_match := raw.require_home_position_match.getD false
      match (if fieldTruthy raw.report_motor_ids then extract_motor_ids raw.report_motor_ids
             else .ok home_motor_ids) with
      | .error e => .error e
      | .ok report_motor_ids =>
        let min_segment_samples := raw.min_segment_samples.getD 1
        if min_segment_samples ≤ 0 then
          .error "min_segment_samples must be a positive integer"
        else
          match raw.actuated_motors with
          | RawField.listVal xs =>
            if xs.isEmpty then .error "actuated_motors must be non-empty"
            else
              match processMotorEntries xs with
              | .error e => .error e
              | .ok actuated_motors =>
                if report_motor_ids.isEmpty then .error "no report motor id"
                else
                  .ok { home_position, home_tolerance, home_motor_ids,
                        require_home_position_match, report_motor_ids,
                        min_segment_samples, actuated_motors }
          | _ => .error "actuated_motors must be non-empty"

/-! ## Concrete sample inputs used to exercise the theorems -/

def motorW3 : MotorConfig := ⟨3, "M3", 50, 0, 100, 0⟩

def motorW4 : MotorConfig := ⟨4, "M4", 60, 0, 80, 0⟩

/-- Two-actuator configuration: home motor 1 commanded to 0, actuated motors
3 and 4. -/
def cfgW : AnalysisConfig :=
  { home_position := 0, home_tolerance := 1, home_motor_ids := [1],
    require_home_position_match := false, report_motor_ids := [1],
    min_segment_samples := 1, actuated_motors := [motorW3, motorW4] }

/-- Eight-sample dataset: motor 1 always targets home, motor 3 is stretched
at rows 1 and 3, motor 4 is stretched at row 2, and both motors are relaxed
at rows 5-6. -/
def dfW : Dataset :=
  { n := 8
    cols := ["target pos (1)", "pos (1)", "target pos (3)", "pos (3)",
             "target pos (4)", "pos (4)"]
    val := fun c =>
      if c = "target pos (3)" then [0, 100, 0, 100, 0, 50, 50, 0]
      else if c = "pos (3)" then [0, 100, 0, 100, 0, 50, 50, 0]
      else if c = "target pos (4)" then [0, 0, 80, 0, 0, 60, 60, 0]
      else if c = "pos (4)" then [0, 0, 80, 0, 0, 60, 60, 0]
      else if c = "target pos (1)" then [0, 0, 0, 0, 0, 0, 0, 0]
      else if c = "pos (1)" then [0, 0, 0, 0, 0, 0, 0, 0]
      else []
    timestamp := TsCol.raw false [] }

/-- Same configuration with a home position no sample ever targets. -/
def cfgN : AnalysisConfig := { cfgW with home_position := 5 }

/-- Two-row dataset with a parsable `timestamp` column. -/
def dfT : Dataset :=
  { n := 2
    cols := ["target pos (1)", "pos (1)", "target pos (3)", "pos (3)",
             "target pos (4)", "pos (4)", "timestamp"]
    val := fun c => if c = "timestamp" then [] else [0, 0]
    timestamp := TsCol.raw true [10, 11] }

/-- Dataset missing the `pos (4)` column required for actuated motor 4. -/
def dfE : Dataset :=
  { n := 1
    cols := ["target pos (1)", "pos (1)", "target pos (3)", "pos (3)", "target pos (4)"]
    val := fun _ => [0]
    timestamp := TsCol.raw false [] }

/-- Raw configuration omitting `report_motor_ids`. -/
def rawW : RawConfig :=
  { home_position := some 0, home_tolerance := none, require_home_position_match := none,
    home_motor_ids := .listVal [.intVal 1], report_motor_ids := .absent,
    min_segment_samples := none, actuated_motors := .listVal [.valid 3 none 50 0 100 0] }

/-- The configuration `load_config` produces from `rawW`. -/
def cfgW10 : AnalysisConfig :=
  { home_position := 0, home_tolerance := 0, home_motor_ids := [1],
    require_home_position_match := false, report_motor_ids := [1],
    min_segment_samples := 1, actuated_motors := [⟨3, "M3", 50, 0, 100, 0⟩] }

/-! ## Theory of `find_segments` -/

theorem findSegmentsAux_acc (rest : List Bool) :
    ∀ (i : Nat) (os : Option Nat) (acc : List (Nat × Nat)),
      findSegmentsAux rest i os acc = acc ++ findSegmentsAux rest i os [] := by
  induction rest with
  | nil => intro i os acc; cases os <;> simp [findSegmentsAux]
  | cons a rest ih =>
    intro i os acc
    cases os with
    | none => cases a <;> simp only [findSegmentsAux, if_true, if_false] <;> exact ih _ _ _
    | some s =>
      cases a
      · simp only [findSegmentsAux, Bool.false_eq_true, if_false, List.nil_append]
        rw [ih _ _ (acc ++ [(s, i - 1)]), ih (i + 1) none [(s, i - 1)], List.append_assoc]
      · simp only [findSegmentsAux, if_true]; exact ih _ _ _

theorem coversIdx_nil (j : Nat) : ¬ coversIdx [] j := by
  simp [coversIdx]

theorem coversIdx_cons (p : Nat × Nat) (l : List (Nat × Nat)) (j : Nat) :
    coversIdx (p :: l) j ↔ (p.1 ≤ j ∧ j ≤ p.2) ∨ coversIdx l j := by
  simp only [coversIdx, List.mem_cons]
  constructor
  · rintro ⟨q, hq | hq, h⟩
    · exact Or.inl (hq ▸ h)
    · exact Or.inr ⟨q, hq, h⟩
  · rintro (h | ⟨q, hq, h⟩)
    · exact ⟨p, Or.inl rfl, h⟩
    · exact ⟨q, Or.inr hq, h⟩

theorem findSegmentsAux_cover (rest : List Bool) :
    ∀ (i : Nat) (os : Option Nat) (j : Nat), (∀ s, os = some s → s < i) →
      (coversIdx (findSegmentsAux rest i os []) j ↔
        ((∃ s, os = some s ∧ s ≤ j ∧ j < i) ∨ (i ≤ j ∧ rest.getD (j - i) false = true))) := by
  induction rest with
  | nil =>
    intro i os j hos
    cases os with
    | none => simp [findSegmentsAux, coversIdx]
    | some s =>
      have hs : s < i := hos s rfl
      simp only [findSegmentsAux, List.nil_append, coversIdx_cons, coversIdx_nil, or_false,
        List.getD_nil, Option.some.injEq]
      constructor
      · rintro ⟨h1, h2⟩; exact Or.inl ⟨s, rfl, h1, by omega⟩
      · rintro (⟨s', hs', h1, h2⟩ | ⟨_, h⟩)
        · exact ⟨by omega, by omega⟩
        · exact absurd h (by simp)
  | cons a rest ih =>
    intro i os j hos
    cases os with
    | none =>
      cases a
      · simp only [findSegmentsAux, Bool.false_eq_true, if_false]
        rw [ih (i + 1) none j (by simp)]
        constructor
        · rintro (⟨s, hs, _⟩ | ⟨h1, h2⟩)
          · exact absurd hs (by simp)
          · refine Or.inr ⟨by omega, ?_⟩
            have : j - i = (j - i - 1) + 1 := by omega
            rw [this, List.getD_cons_succ]
            have : j - i - 1 = j - (i + 1) := by omega
            rw [this]; exact h2
        · rintro (⟨s, hs, _⟩ | ⟨h1, h2⟩)
          · exact absurd hs (by simp)
          · rcases Nat.eq_or_lt_of_le h1 with h | h
            · rw [← h] at h2; simp at h2
            · refine Or.inr ⟨by omega, ?_⟩
              have he : j - i = (j - (i + 1)) + 1 := by omega
              rw [he, List.getD_cons_succ] at h2
              exact h2
      · simp only [findSegmentsAux, if_true]
        rw [ih (i + 1) (some i) j (by intro s' hs'; injection hs' with h; omega)]
        constructor
        · rintro (⟨s, hs, h1, h2⟩ | ⟨h1, h2⟩)
          · injection hs with hse
            refine Or.inr ⟨by omega, ?_⟩
            have hj : j - i = 0 := by omega
            rw [hj, List.getD_cons_zero]
          · refine Or.inr ⟨by omega, ?_⟩
            have he : j - i = (j - (i + 1)) + 1 := by omega
            rw [he, List.getD_cons_succ]
            exact h2
        · rintro (⟨s, hs, _⟩ | ⟨h1, h2⟩)
          · exact absurd hs (by simp)
          · rcases Nat.eq_or_lt_of_le h1 with h | h
            · exact Or.inl ⟨i, rfl, by omega, by omega⟩
            · refine Or.inr ⟨by omega, ?_⟩
              have he : j - i = (j - (i + 1)) + 1 := by omega
              rw [he, List.getD_cons_succ] at h2
              exact h2
    | some s =>
      have hs : s < i := hos s rfl
      cases a
      · simp only [findSegmentsAux, Bool.false_eq_true, if_false]
        rw [findSegmentsAux_acc, List.nil_append, List.singleton_append, coversIdx_cons,
          ih (i + 1) none j (by simp)]
        constructor
        · rintro (⟨h1, h2⟩ | (⟨s', hs', _⟩ | ⟨h1, h2⟩))
          · exact Or.inl ⟨s, rfl, h1, by omega⟩
          · exact absurd hs' (by simp)
          · refine Or.inr ⟨by omega, ?_⟩
            have he : j - i = (j - (i + 1)) + 1 := by omega
            rw [he, List.getD_cons_succ]
            exact h2
        · rintro (⟨s', hs', h1, h2⟩ | ⟨h1, h2⟩)
          · injection hs' with hse; exact Or.inl ⟨by omega, by omega⟩
          · rcases Nat.eq_or_lt_of_le h1 with h | h
            · rw [← h] at h2; simp at h2
            · refine Or.inr (Or.inr ⟨by omega, ?_⟩)
              have he : j - i = (j - (i + 1)) + 1 := by omega
              rw [he, List.getD_cons_succ] at h2
              exact h2
      · simp only [findSegmentsAux, if_true]
        rw [ih (i + 1) (some s) j (by intro s' hs'; injection hs' with h; omega)]
        constructor
        · rintro (⟨s', hs', h1, h2⟩ | ⟨h1, h2⟩)
          · injection hs' with hse
            rcases Nat.lt_or_ge j i with h | h
            · exact Or.inl ⟨s, rfl, by omega, h⟩
            · refine Or.inr ⟨h, ?_⟩
              have hj : j - i = 0 := by omega
              rw [hj, List.getD_cons_zero]
          · refine Or.inr ⟨by omega, ?_⟩
            have he : j - i = (j - (i + 1)) + 1 := by omega
            rw [he, List.getD_cons_succ]
            exact h2
        · rintro (⟨s', hs', h1, h2⟩ | ⟨h1, h2⟩)
          · injection hs' with hse; exact Or.inl ⟨s, rfl, by omega, by omega⟩
          · rcases Nat.eq_or_lt_of_le h1 with h | h
            · exact Or.inl ⟨s, rfl, by omega, by omega⟩
            · refine Or.inr ⟨by omega, ?_⟩
              have he : j - i = (j - (i + 1)) + 1 := by omega
              rw [he, List.getD_cons_succ] at h2
              exact h2

theorem find_segments_cover (mask : List Bool) (j : Nat) :
    coversIdx (find_segments mask) j ↔ mask.getD j false = true := by
  rw [find_segments, findSegmentsAux_cover mask 0 none j (by simp)]
  simp

theorem findSegmentsAux_struct (rest : List Bool) :
    ∀ (i : Nat) (os : Option Nat), (∀ s, os = some s → s < i) →
      (∀ p ∈ findSegmentsAux rest i os [], p.1 ≤ p.2 ∧ os.getD i ≤ p.1) ∧
      List.Pairwise (fun p q : Nat × Nat => p.2 + 1 < q.1) (findSegmentsAux rest i os []) := by
  induction rest with
  | nil =>
    intro i os hos
    cases os with
    | none => simp [findSegmentsAux]
    | some s =>
      have hs : s < i := hos s rfl
      simp only [findSegmentsAux, List.nil_append, List.mem_singleton, Option.getD_some]
      exact ⟨fun p hp => by subst hp; exact ⟨by omega, le_refl s⟩, List.pairwise_singleton _ _⟩
  | cons a rest ih =>
    intro i os hos
    cases os with
    | none =>
      cases a
      · simp only [findSegmentsAux, Bool.false_eq_true, if_false]
        obtain ⟨hmem, hpw⟩ := ih (i + 1) none (by simp)
        refine ⟨fun p hp => ?_, hpw⟩
        obtain ⟨h1, h2⟩ := hmem p hp
        simp only [Option.getD_none] at h2 ⊢
        exact ⟨h1, by omega⟩
      · simp only [findSegmentsAux, if_true]
        obtain ⟨hmem, hpw⟩ := ih (i + 1) (some i) (by intro s' hs'; injection hs' with h; omega)
        refine ⟨fun p hp => ?_, hpw⟩
        obtain ⟨h1, h2⟩ := hmem p hp
        simp only [Option.getD_some] at h2
        simp only [Option.getD_none]
        exact ⟨h1, h2⟩
    | some s =>
      have hs : s < i := hos s rfl
      cases a
      · simp only [findSegmentsAux, Bool.false_eq_true, if_false, List.nil_append]
        rw [findSegmentsAux_acc, List.singleton_append]
        obtain ⟨hmem, hpw⟩ := ih (i + 1) none (by simp)
        constructor
        · intro p hp
          rcases List.mem_cons.mp hp with rfl | hp
          · exact ⟨by omega, by simp⟩
          · obtain ⟨h1, h2⟩ := hmem p hp
            simp only [Option.getD_none] at h2
            simp only [Option.getD_some]
            exact ⟨h1, by omega⟩
        · refine List.pairwise_cons.mpr ⟨fun q hq => ?_, hpw⟩
          obtain ⟨_, h2⟩ := hmem q hq
          simp only [Option.getD_none] at h2
          omega
      · simp only [findSegmentsAux, if_true]
        obtain ⟨hmem, hpw⟩ := ih (i + 1) (some s) (by intro s' hs'; injection hs' with h; omega)
        refine ⟨fun p hp => ?_, hpw⟩
        obtain ⟨h1, h2⟩ := hmem p hp
        simp only [Option.getD_some] at h2 ⊢
        exact ⟨h1, h2⟩

theorem find_segments_le (mask : List Bool) : ∀ p ∈ find_segments mask, p.1 ≤ p.2 :=
  fun p hp => ((findSegmentsAux_struct mask 0 none (by simp)).1 p hp).1

theorem find_segments_gap (mask : List Bool) :
    List.Pairwise (fun p q : Nat × Nat => p.2 + 1 < q.1) (find_segments mask) :=
  (findSegmentsAux_struct mask 0 none (by simp)).2

theorem pairwise_mem_rel {α : Type} {R : α → α → Prop} :
    ∀ {l : List α}, l.Pairwise R → ∀ {p q : α}, p ∈ l → q ∈ l → p ≠ q → R p q ∨ R q p := by
  intro l hl
  induction hl with
  | nil => intro p q hp _ _; exact absurd hp (List.not_mem_nil p)
  | cons hhead _ ih =>
    intro p q hp hq hne
    rcases List.mem_cons.mp hp with rfl | hp'
    · rcases List.mem_cons.mp hq with rfl | hq'
      · exact absurd rfl hne
      · exact Or.inl (hhead q hq')
    · rcases List.mem_cons.mp hq with rfl | hq'
      · exact Or.inr (hhead p hp')
      · exact ih hp' hq' hne

theorem find_segments_maximal (mask : List Bool) :
    ∀ p ∈ find_segments mask,
      (p.1 = 0 ∨ mask.getD (p.1 - 1) false = false) ∧ mask.getD (p.2 + 1) false = false := by
  intro p hp
  have hle := find_segments_le mask
  have hgap := find_segments_gap mask
  have hpe := hle p hp
  constructor
  · rcases Nat.eq_zero_or_pos p.1 with h0 | hpos
    · exact Or.inl h0
    · refine Or.inr ?_
      by_contra hcon
      have htrue : mask.getD (p.1 - 1) false = true := by
        cases h : mask.getD (p.1 - 1) false
        · exact absurd h hcon
        · rfl
      obtain ⟨q, hq, hq1, hq2⟩ := (find_segments_cover mask (p.1 - 1)).mpr htrue
      rcases eq_or_ne p q with rfl | hne
      · omega
      · rcases pairwise_mem_rel hgap hp hq hne with h | h
        · have := hle q hq
          omega
        · omega
  · by_contra hcon
    have htrue : mask.getD (p.2 + 1) false = true := by
      cases h : mask.getD (p.2 + 1) false
      · exact absurd h hcon
      · rfl
    obtain ⟨q, hq, hq1, hq2⟩ := (find_segments_cover mask (p.2 + 1)).mpr htrue
    rcases eq_or_ne p q with rfl | hne
    · omega
    · rcases pairwise_mem_rel hgap hp hq hne with h | h
      · omega
      · have := hle p hp
        omega

theorem findSegmentsAux_all_false (n : Nat) :
    ∀ (i : Nat), findSegmentsAux (List.replicate n false) i none [] = [] := by
  induction n with
  | zero => intro i; rfl
  | succ n ih =>
    intro i
    simp only [List.replicate_succ, findSegmentsAux, Bool.false_eq_true, if_false]
    exact ih (i + 1)

theorem findSegmentsAux_all_true (n : Nat) :
    ∀ (i s : Nat), findSegmentsAux (List.replicate n true) i (some s) [] = [(s, i + n - 1)] := by
  induction n with
  | zero => intro i s; simp [findSegmentsAux]
  | succ n ih =>
    intro i s
    simp only [List.replicate_succ, findSegmentsAux, if_true]
    rw [ih (i + 1) s]
    congr 2
    omega

theorem find_segments_sorted (mask : List Bool) :
    List.Pairwise (fun p q : Nat × Nat => p.1 < q.1) (find_segments mask) :=
  List.Pairwise.imp_of_mem
    (fun ha _ hr => by have := find_segments_le mask _ ha; omega)
    (find_segments_gap mask)

/-- C1: on every boolean mask, `find_segments` returns intervals with
`start ≤ end`, pairwise disjoint and ordered by ascending start, maximal
(the sample before the start and the sample after the end are false), whose
union as index sets is exactly the set of true positions; on an all-false
sequence it returns `[]` and on an all-true sequence of length `n + 1` it
returns `[(0, n)]`. -/
theorem find_segments_correct :
    (∀ mask : List Bool, ∀ p ∈ find_segments mask, p.1 ≤ p.2) ∧
    (∀ mask : List Bool,
      List.Pairwise (fun p q : Nat × Nat => p.2 < q.1) (find_segments mask)) ∧
    (∀ mask : List Bool, ∀ p ∈ find_segments mask,
      (p.1 = 0 ∨ mask.getD (p.1 - 1) false = false) ∧ mask.getD (p.2 + 1) false = false) ∧
    (∀ mask : List Bool, ∀ j : Nat,
      (∃ p ∈ find_segments mask, p.1 ≤ j ∧ j ≤ p.2) ↔ mask.getD j false = true) ∧
    (∀ n : Nat, find_segments (List.replicate n false) = []) ∧
    (∀ n : Nat, find_segments (List.replicate (n + 1) true) = [(0, n)]) := by
  refine ⟨find_segments_le, ?_, find_segments_maximal, ?_, ?_, ?_⟩
  · intro mask
    exact (find_segments_gap mask).imp (fun h => by omega)
  · intro mask j
    exact find_segments_cover mask j
  · intro n
    exact findSegmentsAux_all_false n 0
  · intro n
    show findSegmentsAux (List.replicate (n + 1) true) 0 none [] = [(0, n)]
    rw [List.replicate_succ]
    simp only [findSegmentsAux, if_true]
    rw [findSegmentsAux_all_true n 1 0]
    have h : 1 + n - 1 = n := by omega
    rw [h]

theorem find_segments_correct_witness :
    find_segments (List.replicate (1 + 1) true) = [(0, 1)] :=
  find_segments_correct.2.2.2.2.2 1

/-- C4: the segment filter keeps only intervals with
`end - start + 1 >= min_segment_samples`, and raising the threshold can only
remove segments (the filtered list at a higher threshold is a subset of the
one at a lower threshold). -/
theorem filter_segments_correct :
    (∀ (raw : List (Nat × Nat)) (k : Int), ∀ p ∈ filter_segments raw k,
      k ≤ (p.2 : Int) - (p.1 : Int) + 1) ∧
    (∀ (raw : List (Nat × Nat)) (k1 k2 : Int), k1 ≤ k2 →
      ∀ p ∈ filter_segments raw k2, p ∈ filter_segments raw k1) := by
  constructor
  · intro raw k p hp
    have h := (List.mem_filter.mp hp).2
    simpa using h
  · intro raw k1 k2 h12 p hp
    obtain ⟨hmem, hcond⟩ := List.mem_filter.mp hp
    refine List.mem_filter.mpr ⟨hmem, ?_⟩
    simp only [decide_eq_true_eq] at hcond ⊢
    omega

theorem filter_segments_correct_witness :
    (2, 5) ∈ filter_segments [(0, 1), (2, 5)] 2 :=
  filter_segments_correct.2 [(0, 1), (2, 5)] 2 3 (by norm_num) (2, 5) (by decide)

/-! ## Theory of the sub-segment matcher -/

theorem matchRelaxed_none : ∀ (l : List (Nat × Nat)) (le : Nat),
    matchRelaxed l le = none ↔ ∀ p ∈ l, p.1 ≤ le := by
  intro l
  induction l with
  | nil => intro le; simp [matchRelaxed]
  | cons x rest ih =>
    intro le
    simp only [matchRelaxed]
    by_cases hc : le < x.1
    · rw [if_pos hc]
      constructor
      · intro h; exact absurd h (by simp)
      · intro hall; exact absurd (hall x (List.mem_cons_self x rest)) (by omega)
    · rw [if_neg hc, ih le]
      constructor
      · intro hall q hq
        rcases List.mem_cons.mp hq with rfl | hq'
        · omega
        · exact hall q hq'
      · intro hall q hq
        exact hall q (List.mem_cons_of_mem _ hq)

theorem matchRelaxed_some : ∀ (l : List (Nat × Nat)) (le : Nat) (q : Nat × Nat),
    matchRelaxed l le = some q → q ∈ l ∧ le < q.1 := by
  intro l
  induction l with
  | nil => intro le q h; exact absurd h (by simp [matchRelaxed])
  | cons x rest ih =>
    intro le q h
    simp only [matchRelaxed] at h
    by_cases hc : le < x.1
    · rw [if_pos hc] at h
      injection h with h
      subst h
      exact ⟨List.mem_cons_self x rest, hc⟩
    · rw [if_neg hc] at h
      obtain ⟨hmem, hlt⟩ := ih le q h
      exact ⟨List.mem_cons_of_mem _ hmem, hlt⟩

theorem matchRelaxed_first : ∀ (l : List (Nat × Nat)) (le : Nat) (q : Nat × Nat),
    List.Pairwise (fun p q : Nat × Nat => p.1 < q.1) l →
    matchRelaxed l le = some q → ∀ p ∈ l, le < p.1 → q.1 ≤ p.1 := by
  intro l
  induction l with
  | nil => intro le q _ h; exact absurd h (by simp [matchRelaxed])
  | cons x rest ih =>
    intro le q hsorted h p hp hlt
    simp only [matchRelaxed] at h
    by_cases hc : le < x.1
    · rw [if_pos hc] at h
      injection h with h
      subst h
      rcases List.mem_cons.mp hp with rfl | hp'
      · exact le_refl _
      · exact le_of_lt ((List.pairwise_cons.mp hsorted).1 p hp')
    · rw [if_neg hc] at h
      rcases List.mem_cons.mp hp with rfl | hp'
      · omega
      · exact ih le q (List.pairwise_cons.mp hsorted).2 h p hp' hlt

/-- C2: for a relaxed-interval list produced by `find_segments`, the inner
scan returns no interval exactly when none starts strictly after the
stretched interval's end `le`; when it returns one, that interval belongs to
the list, starts strictly after `le`, and is the earliest-starting qualifying
interval; and the per-stretch emission consists of the stretched sub-segment
followed by exactly the scan's result. -/
theorem sub_segment_matcher_spec (relaxedMask : List Bool) (le : Nat) :
    (matchRelaxed (find_segments relaxedMask) le = none ↔
      ∀ p ∈ find_segments relaxedMask, p.1 ≤ le) ∧
    (∀ q : Nat × Nat, matchRelaxed (find_segments relaxedMask) le = some q →
      q ∈ find_segments relaxedMask ∧ le < q.1 ∧
        ∀ p ∈ find_segments relaxedMask, le < p.1 → q.1 ≤ p.1) ∧
    (∀ (lbl : String) (s : Nat) (p : Nat × Nat),
      emitForStretch lbl s (find_segments relaxedMask) p =
        Emit.mk lbl SubState.stretched (s + p.1, s + p.2) ::
          ((matchRelaxed (find_segments relaxedMask) p.2).map
            (fun q => Emit.mk lbl SubState.relaxed (s + q.1, s + q.2))).toList) := by
  refine ⟨matchRelaxed_none _ le, fun q h => ?_, fun lbl s p => ?_⟩
  · obtain ⟨hmem, hlt⟩ := matchRelaxed_some _ le q h
    exact ⟨hmem, hlt, matchRelaxed_first _ le q (find_segments_sorted relaxedMask) h⟩
  · cases h : matchRelaxed (find_segments relaxedMask) p.2 <;>
      simp [emitForStretch, h]

theorem sub_segment_matcher_spec_witness :
    (1, 1) ∈ find_segments [false, true] ∧ 0 < 1 := by
  have h := (sub_segment_matcher_spec [false, true] 0).2.1 (1, 1) (by decide)
  exact ⟨h.1, h.2.1⟩

unseal Rat.add Rat.sub Rat.mul Rat.inv in
/-- C3: the matcher never consumes relaxed intervals: every stretched
interval is matched against the unrestricted relaxed-interval list, so on
the sample inputs the same relaxed interval `(5, 6)` is emitted for both
stretched intervals of motor M3 and again for motor M4's stretched interval,
lands twice in M3's relaxed aggregation group, and its rows appear twice in
the concatenated rows of that group. -/
theorem matcher_no_consumption :
    (∀ (relaxed stretched : List (Nat × Nat)) (lbl : String) (s : Nat),
      (stretched.flatMap (emitForStretch lbl s relaxed)).filter
          (fun e => decide (e.state = SubState.relaxed)) =
        stretched.flatMap fun p =>
          ((matchRelaxed relaxed p.2).map
            (fun q => Emit.mk lbl SubState.relaxed (s + q.1, s + q.2))).toList) ∧
    processSegment dfW cfgW (build_relaxed_mask dfW cfgW.actuated_motors)
        (stretchMaskDict dfW cfgW.actuated_motors) (0, 7) =
      [⟨"M3", .stretched, (1, 1)⟩, ⟨"M3", .relaxed, (5, 6)⟩,
       ⟨"M3", .stretched, (3, 3)⟩, ⟨"M3", .relaxed, (5, 6)⟩,
       ⟨"M4", .stretched, (2, 2)⟩, ⟨"M4", .relaxed, (5, 6)⟩] ∧
    groupSlices
        (processSegment dfW cfgW (build_relaxed_mask dfW cfgW.actuated_motors)
          (stretchMaskDict dfW cfgW.actuated_motors) (0, 7)) "M3" SubState.relaxed =
      [(5, 6), (5, 6)] ∧
    groupSlices
        (processSegment dfW cfgW (build_relaxed_mask dfW cfgW.actuated_motors)
          (stretchMaskDict dfW cfgW.actuated_motors) (0, 7)) "M4" SubState.relaxed =
      [(5, 6)] ∧
    ¬ ((groupSlices
        (processSegment dfW cfgW (build_relaxed_mask dfW cfgW.actuated_motors)
          (stretchMaskDict dfW cfgW.actuated_motors) (0, 7)) "M3" SubState.relaxed).flatMap
          (sliceRows dfW)).Nodup := by
  refine ⟨?_, by decide, by decide, by decide, by decide⟩
  intro relaxed stretched lbl s
  induction stretched with
  | nil => rfl
  | cons p rest ih =>
    simp only [List.flatMap_cons, List.filter_append, ih]
    congr 1
    cases h : matchRelaxed relaxed p.2 <;> simp [emitForStretch, h]

/-! ## Theory of the mask builders -/

theorem getD_range_map {α : Type} (f : Nat → α) (d : α) (n i : Nat) (h : i < n) :
    ((List.range n).map f).getD i d = f i := by
  rw [List.getD_eq_getElem _ _ (by simpa using h)]
  simp

theorem maskAnd_length (a b : List Bool) : (maskAnd a b).length = min a.length b.length :=
  List.length_zipWith and a b

theorem maskAnd_getD (a b : List Bool) (i : Nat) (ha : i < a.length) (hb : i < b.length) :
    (maskAnd a b).getD i false = (a.getD i false && b.getD i false) := by
  rw [List.getD_eq_getElem _ _ (by rw [maskAnd_length]; omega),
    List.getD_eq_getElem _ _ ha, List.getD_eq_getElem _ _ hb]
  exact List.getElem_zipWith

theorem seriesEqMask_length (df : Dataset) (c : String) (x : ℚ) :
    (seriesEqMask df c x).length = df.n := by
  simp [seriesEqMask]

theorem seriesTolMask_length (df : Dataset) (c : String) (x tol : ℚ) :
    (seriesTolMask df c x tol).length = df.n := by
  simp [seriesTolMask]

theorem phaseStep_length (df : Dataset) (config : AnalysisConfig) (mask : List Bool)
    (mid : Int) (h : mask.length = df.n) : (phaseStep df config mask mid).length = df.n := by
  rw [phaseStep]
  by_cases hr : config.require_home_position_match <;>
    simp [hr, maskAnd_length, seriesEqMask_length, seriesTolMask_length, h]

theorem phaseStep_getD (df : Dataset) (config : AnalysisConfig) (mask : List Bool)
    (mid : Int) (i : Nat) (h : mask.length = df.n) (hi : i < df.n) :
    (phaseStep df config mask mid).getD i false =
      (mask.getD i false &&
        (decide (colAt df (target_col mid) i = config.home_position) &&
          (!config.require_home_position_match ||
            decide (|colAt df (pos_col mid) i - config.home_position| ≤
              config.home_tolerance)))) := by
  rw [phaseStep]
  by_cases hr : config.require_home_position_match
  · rw [if_pos hr, hr,
      maskAnd_getD _ _ i (by rw [maskAnd_length, seriesEqMask_length]; omega)
        (by rw [seriesTolMask_length]; omega),
      maskAnd_getD _ _ i (by omega) (by rw [seriesEqMask_length]; omega)]
    rw [seriesEqMask, seriesTolMask, getD_range_map _ _ _ _ hi, getD_range_map _ _ _ _ hi]
    simp [Bool.and_assoc]
  · rw [if_neg hr,
      maskAnd_getD _ _ i (by omega) (by rw [seriesEqMask_length]; omega)]
    rw [seriesEqMask, getD_range_map _ _ _ _ hi]
    have hr' : config.require_home_position_match = false := by
      cases h : config.require_home_position_match
      · rfl
      · exact absurd h hr
    simp [hr']

theorem phase_foldl_getD (df : Dataset) (config : AnalysisConfig) :
    ∀ (motors : List Int) (mask0 : List Bool), mask0.length = df.n → ∀ i, i < df.n →
      ((motors.foldl (phaseStep df config) mask0).getD i false =
        (mask0.getD i false && motors.all fun mid =>
          decide (colAt df (target_col mid) i = config.home_position) &&
            (!config.require_home_position_match ||
              decide (|colAt df (pos_col mid) i - config.home_position| ≤
                config.home_tolerance)))) := by
  intro motors
  induction motors with
  | nil => intro mask0 _ i _; simp
  | cons mid rest ih =>
    intro mask0 h i hi
    rw [List.foldl_cons, ih (phaseStep df config mask0 mid) (phaseStep_length _ _ _ _ h) i hi,
      phaseStep_getD _ _ _ _ _ h hi]
    simp [Bool.and_assoc]

/-- C5: the phase mask is true at a sample index within range exactly when
every home motor's target equals `home_position` by exact equality and —
only when `require_home_position_match` is set — its position is within
`home_tolerance` of `home_position` (inclusive absolute difference). -/
theorem build_phase_mask_spec (df : Dataset) (config : AnalysisConfig) (i : Nat)
    (hi : i < df.n) :
    ((build_phase_mask df config).getD i false = true ↔
      ∀ mid ∈ config.home_motor_ids,
        colAt df (target_col mid) i = config.home_position ∧
        (config.require_home_position_match = true →
          |colAt df (pos_col mid) i - config.home_position| ≤ config.home_tolerance)) := by
  rw [build_phase_mask,
    phase_foldl_getD df config config.home_motor_ids (List.replicate df.n true)
      (by simp) i hi]
  rw [List.getD_eq_getElem _ _ (by simpa using hi), List.getElem_replicate]
  simp only [Bool.true_and, List.all_eq_true, Bool.and_eq_true, Bool.or_eq_true,
    Bool.not_eq_true', decide_eq_true_eq]
  constructor
  · intro hall mid hm
    obtain ⟨h1, h2⟩ := hall mid hm
    refine ⟨h1, fun hr => ?_⟩
    rcases h2 with h2 | h2
    · rw [hr] at h2; cases h2
    · exact h2
  · intro hall mid hm
    obtain ⟨h1, h2⟩ := hall mid hm
    refine ⟨h1, ?_⟩
    cases hr : config.require_home_position_match
    · exact Or.inl rfl
    · exact Or.inr (h2 hr)

unseal Rat.add Rat.sub Rat.mul Rat.inv in
theorem build_phase_mask_spec_witness :
    (build_phase_mask dfW cfgW).getD 0 false = true :=
  (build_phase_mask_spec dfW cfgW 0 (by decide)).mpr (by decide)

/-! ## Theory of `load_config` -/

theorem except_bind_ok {ε α β : Type} {x : Except ε α} {f : α → Except ε β} {b : β}
    (h : x.bind f = .ok b) : ∃ a, x = .ok a ∧ f a = .ok b := by
  cases x with
  | error e => exact absurd h (by simp [Except.bind])
  | ok a => exact ⟨a, rfl, by simpa [Except.bind] using h⟩

theorem collectIds_cons_ok (x : RawItem) (rest : List RawItem) (l : List Int) :
    collectIds (x :: rest) [] = .ok l → l ≠ [] := by
  intro h
  cases x with
  | badVal => exact absurd h (by simp [collectIds])
  | intVal i =>
    simp only [collectIds, List.not_mem_nil, if_neg, List.mem_singleton] at h
    rw [if_neg (by simp)] at h
    cases hc : collectIds rest [i] with
    | error e => rw [hc] at h; exact absurd h (by simp [Except.map])
    | ok l2 =>
      rw [hc] at h
      simp only [Except.map, Except.ok.injEq] at h
      subst h
      exact List.cons_ne_nil i l2

theorem extract_motor_ids_ok_ne_nil (v : RawField RawItem) (l : List Int) :
    extract_motor_ids v = .ok l → l ≠ [] := by
  intro h
  cases v with
  | absent => exact absurd h (by simp [extract_motor_ids])
  | nonList t => exact absurd h (by simp [extract_motor_ids])
  | listVal xs =>
    cases xs with
    | nil => exact absurd h (by simp [extract_motor_ids])
    | cons x rest =>
      rw [extract_motor_ids, if_neg (by simp)] at h
      exact collectIds_cons_ok x rest l h

/-- C10: when `report_motor_ids` is absent, empty, or otherwise falsy, the
loader silently reuses `home_motor_ids`; every successfully loaded
configuration has a non-empty `report_motor_ids`. -/
theorem load_config_report_ids (raw : RawConfig) (cfg : AnalysisConfig) :
    load_config raw = Except.ok cfg →
      cfg.report_motor_ids ≠ [] ∧
      (fieldTruthy raw.report_motor_ids = false →
        cfg.report_motor_ids = cfg.home_motor_ids) := by
  intro h
  rw [load_config] at h
  cases hp : raw.home_position with
  | none => rw [hp] at h; cases h
  | some q =>
    rw [hp] at h
    cases hh : extract_motor_ids raw.home_motor_ids with
    | error e => rw [hh] at h; cases h
    | ok home_ids =>
      rw [hh] at h
      dsimp only at h
      cases hr : (if fieldTruthy raw.report_motor_ids then
          extract_motor_ids raw.report_motor_ids else .ok home_ids) with
      | error e => rw [hr] at h; cases h
      | ok report_ids =>
        rw [hr] at h
        dsimp only at h
        by_cases hmin : raw.min_segment_samples.getD 1 ≤ 0
        · rw [if_pos hmin] at h; cases h
        · rw [if_neg hmin] at h
          cases ham : raw.actuated_motors with
          | absent => rw [ham] at h; cases h
          | nonList t => rw [ham] at h; cases h
          | listVal xs =>
            rw [ham] at h
            dsimp only at h
            by_cases hxs : xs.isEmpty
            · rw [if_pos hxs] at h; cases h
            · rw [if_neg hxs] at h
              cases hpm : processMotorEntries xs with
              | error e => rw [hpm] at h; cases h
              | ok actuated =>
                rw [hpm] at h
                dsimp only at h
                by_cases hrep : report_ids.isEmpty
                · rw [if_pos hrep] at h; cases h
                · rw [if_neg hrep] at h
                  injection h with h
                  subst h
                  constructor
                  · simpa using hrep
                  · intro hfalsy
                    rw [hfalsy] at hr
                    simp only [Bool.false_eq_true, if_false] at hr
                    injection hr with hr
                    simp [hr]

theorem load_config_report_ids_witness :
    cfgW10.report_motor_ids ≠ [] ∧ cfgW10.report_motor_ids = cfgW10.home_motor_ids := by
  have h := load_config_report_ids rawW cfgW10 (by rfl)
  exact ⟨h.1, h.2 (by rfl)⟩

/-! ## Theory of the column check -/

theorem insertStr_mem (c s : String) : ∀ (l : List String),
    c ∈ insertStr s l ↔ c = s ∨ c ∈ l := by
  intro l
  induction l with
  | nil => simp [insertStr]
  | cons t rest ih =>
    rw [insertStr]
    by_cases h : strLe s t
    · rw [if_pos h]
      simp
    · rw [if_neg h]
      simp only [List.mem_cons, ih]
      tauto

theorem sortStrings_mem (c : String) : ∀ (l : List String),
    c ∈ sortStrings l ↔ c ∈ l := by
  intro l
  induction l with
  | nil => simp [sortStrings]
  | cons s rest ih =>
    rw [sortStrings, insertStr_mem]
    simp [List.mem_cons, ih]

theorem requiredColumns_mem (config : AnalysisConfig) (c : String) :
    c ∈ requiredColumns config ↔
      ((∃ mid ∈ config.home_motor_ids, c = target_col mid ∨ c = pos_col mid) ∨
       (∃ mid ∈ config.report_motor_ids, c = pos_col mid) ∨
       (∃ m ∈ config.actuated_motors,
         c = target_col m.motor_id ∨ c = pos_col m.motor_id)) := by
  rw [requiredColumns, sortStrings_mem, List.mem_dedup]
  simp only [List.mem_append, List.mem_flatMap, List.mem_map, List.mem_cons,
    List.mem_singleton, List.not_mem_nil, or_false]
  constructor
  · rintro ((⟨mid, hm, hc⟩ | ⟨mid, hm, hc⟩) | ⟨m, hm, hc⟩)
    · exact Or.inl ⟨mid, hm, hc⟩
    · exact Or.inr (Or.inl ⟨mid, hm, hc.symm⟩)
    · exact Or.inr (Or.inr ⟨m, hm, hc⟩)
  · rintro (⟨mid, hm, hc⟩ | ⟨mid, hm, hc⟩ | ⟨m, hm, hc⟩)
    · exact Or.inl (Or.inl ⟨mid, hm, hc⟩)
    · exact Or.inl (Or.inr ⟨mid, hm, hc.symm⟩)
    · exact Or.inr ⟨m, hm, hc⟩

/-- C7: with any required column missing, `analyze_log` raises immediately:
the dataframe is returned untouched (no mutation, no mask has been built)
with an error listing exactly the required-but-absent columns — all of them —
where the required columns are the target and position columns of home and
actuated motors and the position columns of report motors. -/
theorem analyze_log_missing_columns (df : Dataset) (config : AnalysisConfig)
    (h : missingColumns df config ≠ []) :
    analyze_log df config = (df, Except.error (missingColumns df config)) ∧
    (∀ c, c ∈ missingColumns df config ↔ c ∈ requiredColumns config ∧ c ∉ df.cols) ∧
    (∀ c, c ∈ requiredColumns config ↔
      ((∃ mid ∈ config.home_motor_ids, c = target_col mid ∨ c = pos_col mid) ∨
       (∃ mid ∈ config.report_motor_ids, c = pos_col mid) ∨
       (∃ m ∈ config.actuated_motors,
         c = target_col m.motor_id ∨ c = pos_col m.motor_id))) := by
  refine ⟨?_, ?_, requiredColumns_mem config⟩
  · rw [analyze_log]
    rw [if_neg (by simpa [List.isEmpty_iff] using h)]
  · intro c
    rw [missingColumns, List.mem_filter]
    simp

theorem analyze_log_missing_columns_witness :
    analyze_log dfE cfgW = (dfE, Except.error ["pos (4)"]) ∧
    "pos (4)" ∈ missingColumns dfE cfgW := by
  have h := analyze_log_missing_columns dfE cfgW (by decide)
  have hm : missingColumns dfE cfgW = ["pos (4)"] := by decide
  refine ⟨?_, ?_⟩
  · rw [h.1, hm]
  · exact (h.2.1 "pos (4)").mpr (by decide)

/-! ## Theory of the dataframe mutation -/

theorem target_col_ne_tsec (mid : Int) : target_col mid ≠ "t_sec" := by
  intro h
  have hlen := congrArg String.length h
  rw [target_col, String.length_append, String.length_append] at hlen
  have h1 : ("target pos (" : String).length = 12 := by decide
  have h2 : (")" : String).length = 1 := by decide
  have h3 : ("t_sec" : String).length = 5 := by decide
  omega

theorem pos_col_ne_tsec (mid : Int) : pos_col mid ≠ "t_sec" := by
  intro h
  have hlen := congrArg String.length h
  rw [pos_col, String.length_append, String.length_append] at hlen
  have h1 : ("pos (" : String).length = 5 := by decide
  have h2 : (")" : String).length = 1 := by decide
  have h3 : ("t_sec" : String).length = 5 := by decide
  omega

theorem applyTimestamp_n (df : Dataset) : (applyTimestamp df).n = df.n := rfl

theorem applyTimestamp_cols_def (df : Dataset) :
    (applyTimestamp df).cols =
      if "t_sec" ∈ df.cols then df.cols else df.cols ++ ["t_sec"] := rfl

theorem applyTimestamp_timestamp_def (df : Dataset) :
    (applyTimestamp df).timestamp =
      if "timestamp" ∈ df.cols then parseTimestampCol df.timestamp else df.timestamp := rfl

theorem applyTimestamp_cols_mem (df : Dataset) (c : String) :
    c ∈ (applyTimestamp df).cols ↔ c ∈ df.cols ∨ c = "t_sec" := by
  rw [applyTimestamp_cols_def]
  by_cases h : "t_sec" ∈ df.cols
  · rw [if_pos h]
    constructor
    · exact Or.inl
    · rintro (hc | rfl)
      · exact hc
      · exact h
  · rw [if_neg h]
    simp

theorem applyTimestamp_val_frame (df : Dataset) (c : String) (h : c ≠ "t_sec") :
    (applyTimestamp df).val c = df.val c := by
  show colUpdate df.val "t_sec" _ c = df.val c
  rw [colUpdate]
  exact if_neg h

theorem applyTimestamp_tsec_def (df : Dataset) :
    (applyTimestamp df).val "t_sec" =
      if "timestamp" ∈ df.cols ∧ tsIsDatetime ((applyTimestamp df).timestamp) = true then
        elapsedVals ((applyTimestamp df).timestamp)
      else (List.range df.n).map fun i => (i : ℚ) := by
  rw [applyTimestamp_timestamp_def]
  simp [applyTimestamp, colUpdate]

theorem parseTimestampCol_idem (t : TsCol) :
    parseTimestampCol (parseTimestampCol t) = parseTimestampCol t := by
  cases t with
  | raw canParse p => cases canParse <;> rfl
  | datetime v => rfl

theorem timestamp_ne_tsec : ("timestamp" : String) ≠ "t_sec" := by decide

theorem applyTimestamp_timestamp_mem (df : Dataset) :
    ("timestamp" ∈ (applyTimestamp df).cols) ↔ "timestamp" ∈ df.cols := by
  rw [applyTimestamp_cols_mem]
  simp [timestamp_ne_tsec]

theorem applyTimestamp_ts_idem (df : Dataset) :
    (applyTimestamp (applyTimestamp df)).timestamp = (applyTimestamp df).timestamp := by
  rw [applyTimestamp_timestamp_def (applyTimestamp df)]
  by_cases h : "timestamp" ∈ df.cols
  · rw [if_pos ((applyTimestamp_timestamp_mem df).mpr h), applyTimestamp_timestamp_def,
      if_pos h, parseTimestampCol_idem]
  · rw [if_neg (fun hc => h ((applyTimestamp_timestamp_mem df).mp hc))]

theorem applyTimestamp_tsec_idem (df : Dataset) :
    (applyTimestamp (applyTimestamp df)).val "t_sec" = (applyTimestamp df).val "t_sec" := by
  rw [applyTimestamp_tsec_def (applyTimestamp df), applyTimestamp_tsec_def df,
    applyTimestamp_ts_idem, applyTimestamp_n]
  by_cases h : "timestamp" ∈ df.cols
  · simp [applyTimestamp_timestamp_mem, h]
  · simp [applyTimestamp_timestamp_mem, h]

theorem dataset_eq {a b : Dataset} (hn : a.n = b.n) (hc : a.cols = b.cols)
    (hv : a.val = b.val) (ht : a.timestamp = b.timestamp) : a = b := by
  cases a
  cases b
  simp only [Dataset.mk.injEq]
  exact ⟨hn, hc, hv, ht⟩

theorem applyTimestamp_idem (df : Dataset) :
    applyTimestamp (applyTimestamp df) = applyTimestamp df := by
  have htsec : "t_sec" ∈ (applyTimestamp df).cols :=
    (applyTimestamp_cols_mem df "t_sec").mpr (Or.inr rfl)
  refine dataset_eq rfl ?_ ?_ (applyTimestamp_ts_idem df)
  · rw [applyTimestamp_cols_def (applyTimestamp df), if_pos htsec]
  · funext c
    by_cases h : c = "t_sec"
    · rw [h, applyTimestamp_tsec_idem]
    · rw [applyTimestamp_val_frame _ _ h, applyTimestamp_val_frame _ _ h]

theorem requiredColumns_ne_tsec (config : AnalysisConfig) (c : String)
    (hc : c ∈ requiredColumns config) : c ≠ "t_sec" := by
  rw [requiredColumns_mem] at hc
  rcases hc with (⟨mid, _, (rfl | rfl)⟩ | ⟨mid, _, rfl⟩ | ⟨m, _, (rfl | rfl)⟩)
  · exact target_col_ne_tsec mid
  · exact pos_col_ne_tsec mid
  · exact pos_col_ne_tsec mid
  · exact target_col_ne_tsec m.motor_id
  · exact pos_col_ne_tsec m.motor_id

theorem missingColumns_applyTimestamp (df : Dataset) (config : AnalysisConfig) :
    missingColumns (applyTimestamp df) config = missingColumns df config := by
  rw [missingColumns, missingColumns]
  apply List.filter_congr
  intro c hc
  have hne := requiredColumns_ne_tsec config c hc
  have hmem : (c ∈ (applyTimestamp df).cols) ↔ c ∈ df.cols := by
    rw [applyTimestamp_cols_mem]
    simp [hne]
  exact decide_eq_decide.mpr (not_congr hmem)

/-- C8: `analyze_log` carries no state between calls beyond its explicit
in-place dataframe mutation, and that mutation is idempotent: running it
again on the dataframe a first run left behind returns the same dataframe
and the same report. -/
theorem analyze_log_idempotent (df : Dataset) (config : AnalysisConfig) :
    analyze_log (analyze_log df config).1 config = analyze_log df config := by
  by_cases h : (missingColumns df config).isEmpty
  · have h1 : analyze_log df config =
        (applyTimestamp df, Except.ok (analysisOutput (applyTimestamp df) config)) := by
      simp only [analyze_log]
      rw [if_pos h]
    have h2 : (missingColumns (applyTimestamp df) config).isEmpty = true := by
      rw [missingColumns_applyTimestamp]
      exact h
    rw [h1]
    show analyze_log (applyTimestamp df) config = _
    simp only [analyze_log]
    rw [if_pos h2, applyTimestamp_idem]
  · have h1 : analyze_log df config = (df, Except.error (missingColumns df config)) := by
      simp only [analyze_log]
      rw [if_neg h]
    rw [h1]
    show analyze_log df config = _
    exact h1

/-- C6: empty results are valid terminal states: the mean of an empty slice
group is `none` (reported as `no samples`), a deviation with either side
falsy is `none` (reported as `insufficient data`), and when no segment
survives filtering the run ends normally with the distinct no-segments
report. -/
theorem empty_results_reported (df : Dataset) (config : AnalysisConfig) :
    (average_positions df [] config.report_motor_ids = none) ∧
    (∀ avg2, deviation_entry config.report_motor_ids none avg2 = none) ∧
    (∀ avg1, deviation_entry config.report_motor_ids avg1 none = none) ∧
    (missingColumns df config = [] →
      filter_segments (find_segments (build_phase_mask (applyTimestamp df) config))
          config.min_segment_samples = [] →
      analyze_log df config = (applyTimestamp df, Except.ok [ReportLine.noSegments])) := by
  refine ⟨rfl, fun avg2 => rfl, fun avg1 => ?_, fun h1 h2 => ?_⟩
  · simp [deviation_entry, falsyAvg]
  · have hemp : (missingColumns df config).isEmpty = true := by
      rw [h1]
      rfl
    simp only [analyze_log]
    rw [if_pos hemp]
    simp only [analysisOutput]
    rw [h2]
    simp

unseal Rat.add Rat.sub Rat.mul Rat.inv in
theorem empty_results_reported_witness :
    analyze_log dfW cfgN = (applyTimestamp dfW, Except.ok [ReportLine.noSegments]) :=
  (empty_results_reported dfW cfgN).2.2.2 (by decide) (by decide)

/-- C9: a run whose column check passes mutates the caller's dataframe and
only as documented: the row count is kept, a present `timestamp` column is
overwritten with its parsed datetimes exactly when parsing succeeds, the
`t_sec` column is added or overwritten with elapsed seconds from the first
timestamp (row index as a numeral when no usable timestamp exists), and
every other column is left unchanged. -/
theorem analyze_log_mutation (df : Dataset) (config : AnalysisConfig)
    (h : missingColumns df config = []) :
    (analyze_log df config).1 = applyTimestamp df ∧
    (analyze_log df config).1.n = df.n ∧
    (∀ c, c ≠ "t_sec" → (analyze_log df config).1.val c = df.val c) ∧
    (∀ c, c ∈ (analyze_log df config).1.cols ↔ c ∈ df.cols ∨ c = "t_sec") ∧
    (∀ vals, "timestamp" ∈ df.cols → df.timestamp = TsCol.raw true vals →
      (analyze_log df config).1.timestamp = TsCol.datetime vals) ∧
    (∀ canParse vals, df.timestamp = TsCol.raw canParse vals → canParse = false →
      (analyze_log df config).1.timestamp = df.timestamp) ∧
    (∀ vals, (analyze_log df config).1.timestamp = TsCol.datetime vals →
      "timestamp" ∈ df.cols →
      (analyze_log df config).1.val "t_sec" = vals.map fun t => t - vals.getD 0 0) ∧
    (("timestamp" ∉ df.cols ∨ tsIsDatetime ((analyze_log df config).1.timestamp) = false) →
      (analyze_log df config).1.val "t_sec" = (List.range df.n).map fun i => (i : ℚ)) := by
  have hemp : (missingColumns df config).isEmpty = true := by
    rw [h]
    rfl
  have ha : (analyze_log df config).1 = applyTimestamp df := by
    simp only [analyze_log]
    rw [if_pos hemp]
  refine ⟨ha, ?_, ?_, ?_, ?_, ?_, ?_, ?_⟩
  · rw [ha, applyTimestamp_n]
  · intro c hc
    rw [ha, applyTimestamp_val_frame _ _ hc]
  · intro c
    rw [ha]
    exact applyTimestamp_cols_mem df c
  · intro vals hmem hts
    rw [ha, applyTimestamp_timestamp_def, if_pos hmem, hts]
    rfl
  · intro canParse vals hts hcp
    subst hcp
    rw [ha, applyTimestamp_timestamp_def]
    by_cases hmem : "timestamp" ∈ df.cols
    · rw [if_pos hmem, hts]
      rfl
    · rw [if_neg hmem]
  · intro vals hts hmem
    rw [ha] at hts ⊢
    rw [applyTimestamp_tsec_def, if_pos ⟨hmem, by rw [hts]; rfl⟩, hts]
    rfl
  · intro hcase
    rw [ha] at hcase ⊢
    have hneg : ¬("timestamp" ∈ df.cols ∧
        tsIsDatetime (applyTimestamp df).timestamp = true) := by
      rintro ⟨hm, hd⟩
      rcases hcase with hn | hf
      · exact hn hm
      · rw [hd] at hf
        cases hf
    rw [applyTimestamp_tsec_def, if_neg hneg]

unseal Rat.add Rat.sub Rat.mul Rat.inv in
theorem analyze_log_mutation_witness :
    (analyze_log dfT cfgW).1.val "t_sec" = [0, 1] ∧
    (analyze_log dfT cfgW).1.timestamp = TsCol.datetime [10, 11] ∧
    (analyze_log dfT cfgW).1.val "pos (1)" = [0, 0] := by
  have h := analyze_log_mutation dfT cfgW (by decide)
  have hts : (analyze_log dfT cfgW).1.timestamp = TsCol.datetime [10, 11] :=
    h.2.2.2.2.1 [10, 11] (by decide) rfl
  refine ⟨?_, hts, ?_⟩
  · rw [h.2.2.2.2.2.2.1 [10, 11] hts (by decide)]
    decide
  · rw [h.2.2.1 "pos (1)" (by decide)]
    rfl

unseal Rat.add Rat.sub Rat.mul Rat.inv in
theorem matcher_no_consumption_witness :
    groupSlices
        (processSegment dfW cfgW (build_relaxed_mask dfW cfgW.actuated_motors)
          (stretchMaskDict dfW cfgW.actuated_motors) (0, 7)) "M3" SubState.relaxed =
      [(5, 6), (5, 6)] :=
  matcher_no_consumption.2.2.1

theorem analyze_log_idempotent_witness :
    analyze_log (analyze_log dfW cfgW).1 cfgW = analyze_log dfW cfgW :=
  analyze_log_idempotent dfW cfgW
